import Mathlib

/-!
Verification of `netlify/functions/recipe-api.py` (recipe-generator-app).

The Python module is shallowly embedded here.  Python strings are modelled
as `List Char` (`PyStr`); the handful of string primitives the module uses
(`strip`, `lower`, `title`, `startswith`, the `in` containment test,
`replace`, `split`, `join`) are re-implemented below with the semantics
Python gives them on ASCII data.  Operations that can raise in Python
(`line[0]` on an empty string, `split('.', 1)[1]` when no `'.'` occurs,
`ingredients[0]` on an empty list) are modelled as `Option`-returning
functions, and a function that can propagate such an exception returns
`Option` itself, `none` standing for "raises".

External collaborators (the Firestore collection stream, the chat
completion HTTP call, the persistence write) are passed in as explicit
`Except`-valued inputs, exactly at the narrow interfaces the Python code
uses them through.
-/

set_option maxRecDepth 8192

namespace RecipeApi

/-- Python strings, modelled as lists of characters. -/
abbrev PyStr := List Char

/-- View a Lean string literal as a `PyStr`. -/
def pys (s : String) : PyStr := s.data

/-- ASCII whitespace stripped by Python `str.strip()`:
space, tab, newline, vertical tab, form feed, carriage return.
(Python also strips some further Unicode spaces; the module only ever
meets ASCII markers, and no claim depends on the wider set.) -/
def isPySpace (c : Char) : Bool :=
  c == ' ' || c == '\t' || c == '\n' || c == Char.ofNat 11 || c == Char.ofNat 12 || c == '\r'

/-- Python `str.strip()`. -/
def pyStrip (l : PyStr) : PyStr :=
  ((l.dropWhile isPySpace).reverse.dropWhile isPySpace).reverse

/-- Python `str.lower()` (ASCII; `Char.toLower` maps only `A`–`Z`). -/
def pyLower (l : PyStr) : PyStr := l.map Char.toLower

/-- Helper for `pyTitle`: the Boolean records whether the previous
character was alphabetic. -/
def pyTitleAux : Bool → PyStr → PyStr
  | _, [] => []
  | prevAlpha, c :: cs =>
    (if c.isAlpha then (if prevAlpha then c.toLower else c.toUpper) else c)
      :: pyTitleAux c.isAlpha cs

/-- Python `str.title()` (ASCII letters). -/
def pyTitle (l : PyStr) : PyStr := pyTitleAux false l

/-- Python `str.startswith(pat)` on the char-list model. -/
def startsWithList : PyStr → PyStr → Bool
  | [], _ => true
  | _ :: _, [] => false
  | p :: ps, c :: cs => p == c && startsWithList ps cs

/-- Python `pat in s` (substring containment) on the char-list model. -/
def containsList (pat : PyStr) : PyStr → Bool
  | [] => startsWithList pat []
  | c :: cs => startsWithList pat (c :: cs) || containsList pat cs

/-- Python `s.replace(pat, repl)`: replace every non-overlapping
occurrence, scanning left to right.  (Call sites always pass a non-empty
pattern.) -/
def replaceList (pat repl : PyStr) : PyStr → PyStr
  | [] => []
  | c :: cs =>
    if startsWithList pat (c :: cs) then
      repl ++ replaceList pat repl (cs.drop (pat.length - 1))
    else
      c :: replaceList pat repl cs
termination_by l => l.length
decreasing_by
  · simpa using Nat.lt_succ_of_le (Nat.sub_le _ _)
  · simp

/-- Python `s.split(c)` for a one-character separator: splits at every
occurrence, keeping empty parts, never returning an empty list. -/
def splitOnChar (c : Char) : PyStr → List PyStr
  | [] => [[]]
  | x :: xs =>
    if x == c then [] :: splitOnChar c xs
    else
      match splitOnChar c xs with
      | [] => [[x]]
      | p :: ps => (x :: p) :: ps

/-- Python `sep.join(parts)`. -/
def joinWith (sep : PyStr) : List PyStr → PyStr
  | [] => []
  | [x] => x
  | x :: y :: ys => x ++ sep ++ joinWith sep (y :: ys)

/-- Python `x in xs` for a list of strings. -/
def memList (x : PyStr) : List PyStr → Bool
  | [] => false
  | y :: ys => x == y || memList x ys

/-- Python `line.split('.', 1)[1]`: everything after the first `'.'`.
`none` models the `IndexError` raised when no `'.'` occurs. -/
def splitDotRest (l : PyStr) : Option PyStr :=
  match splitOnChar '.' l with
  | _ :: p :: ps => some (joinWith (pys ".") (p :: ps))
  | _ => none

/-! ## Data model -/

/-- The structured recipe built by `parse_ai_recipe` / `create_fallback_recipe`. -/
structure Recipe where
  title : PyStr
  description : PyStr
  ingredients : List PyStr
  instructions : List PyStr
  deriving DecidableEq, Repr

/-- A recipe as returned from the store lookup (`search_recipes_in_db`):
the stored document's fields with defaults, plus its document id. -/
structure DbRecipe where
  id : PyStr
  title : PyStr
  description : PyStr
  ingredients : List PyStr
  instructions : List PyStr
  deriving DecidableEq, Repr

/-- A raw Firestore document as seen by `doc.to_dict()`: every field may
be absent, which `recipe_data.get(key, default)` papers over. -/
structure StoredDoc where
  docId : PyStr
  title : Option PyStr
  description : Option PyStr
  ingredients : Option (List PyStr)
  instructions : Option (List PyStr)
  deriving DecidableEq, Repr

/-- The parsed JSON request body, when it is a JSON object: the two
recognised fields plus a flag recording whether any further keys are
present (so that Python dict truthiness — non-emptiness — is expressible). -/
structure ReqData where
  ingredients : Option (List PyStr)
  forceAI : Option Bool
  hasOtherKeys : Bool
  deriving DecidableEq, Repr

/-- Python truthiness of the parsed body dict: a dict is truthy iff it
has at least one key. -/
def ReqData.truthy (d : ReqData) : Bool :=
  d.ingredients.isSome || d.forceAI.isSome || d.hasOtherKeys

/-- The `current_section` variable of `parse_ai_recipe`. -/
inductive Sect where
  | ingredients
  | instructions
  deriving DecidableEq, Repr

/-- The mutable state of `parse_ai_recipe`'s line loop. -/
structure ScanState where
  title : PyStr
  description : PyStr
  ingredients : List PyStr
  instructions : List PyStr
  currentSection : Option Sect
  deriving DecidableEq, Repr

/-- Shape of the JSON body of a handler response. -/
inductive RespBody where
  | err (msg : PyStr)
  | fromDb (recipes : List DbRecipe)
  | fromAi (recipe : Recipe)
  deriving DecidableEq, Repr

/-- Result of one handler invocation: HTTP status and body, plus trace
flags recording which collaborators were actually invoked. -/
structure HandlerResult where
  status : Nat
  body : RespBody
  dbQueried : Bool
  aiInvoked : Bool
  persistAttempted : Bool
  persistSucceeded : Bool
  deriving DecidableEq, Repr

/-! ## The embedded Python functions -/

/-- The containment test of `search_recipes_in_db`:
`all(ingredient in recipe_ingredients for ingredient in ingredients)`,
where `recipe_ingredients = [ing.lower() for ing in recipe_data.get('ingredients', [])]`. -/
def matchesQuery (ingredients : List PyStr) (doc : StoredDoc) : Bool :=
  ingredients.all (fun ing => memList ing ((doc.ingredients.getD []).map pyLower))

/-- The record appended for a matching document (source lines 66–72):
note that the returned `ingredients` are `recipe_data.get('ingredients', [])`,
the stored values, not the lower-cased copy used for matching. -/
def docToRecipe (doc : StoredDoc) : DbRecipe :=
  { id := doc.docId
    title := doc.title.getD (pys "Untitled Recipe")
    description := doc.description.getD []
    ingredients := doc.ingredients.getD []
    instructions := doc.instructions.getD [] }

/-- `search_recipes_in_db(ingredients, db)`: full scan of the collection,
client-side filter; any collaborator failure is swallowed and reported as
an empty match list (source lines 76–78). -/
def search_recipes_in_db (ingredients : List PyStr) (db : Except Unit (List StoredDoc)) :
    List DbRecipe :=
  match db with
  | .error _ => []
  | .ok docs => (docs.filter (fun doc => matchesQuery ingredients doc)).map docToRecipe

/-- Initial loop state of `parse_ai_recipe` (source lines 150–155). -/
def initScan : ScanState :=
  { title := pys "AI-Generated Recipe"
    description := pys "A delicious recipe created just for you!"
    ingredients := []
    instructions := []
    currentSection := none }

/-- The fixed four-step instruction default (source lines 181–186). -/
def defaultInstructions : List PyStr :=
  [pys "Prepare all ingredients", pys "Combine ingredients as appropriate",
   pys "Cook until done", pys "Season to taste and serve"]

/-- One iteration of `parse_ai_recipe`'s `for line in lines` loop
(source lines 157–175).  `none` models an uncaught exception: the
`line[0]` access on an empty string in the instruction branch, or the
`[1]` index after `split('.', 1)` when no `'.'` occurs; both are in fact
guarded in the source, which the safety theorem below establishes. -/
def processLine (st : ScanState) (rawLine : PyStr) : Option ScanState :=
  let line := pyStrip rawLine
  if line = [] then some st
  else if containsList (pys "**Title:**") line then
    some { st with
      title := pyStrip (replaceList (pys "**") []
        (replaceList (pys "**Title:**") [] line)) }
  else if containsList (pys "**Description:**") line then
    some { st with
      description := pyStrip (replaceList (pys "**") []
        (replaceList (pys "**Description:**") [] line)) }
  else if containsList (pys "**Ingredients List:**") line then
    some { st with currentSection := some Sect.ingredients }
  else if containsList (pys "**Instructions:**") line then
    some { st with currentSection := some Sect.instructions }
  else if st.currentSection = some Sect.ingredients ∧ startsWithList (pys "-") line then
    some { st with ingredients := st.ingredients ++ [pyStrip (line.drop 1)] }
  else if st.currentSection = some Sect.instructions then
    match line.head? with
    | none => none
    | some c =>
      if c.isDigit then
        if containsList (pys ".") line then
          match splitDotRest line with
          | none => none
          | some rest => some { st with instructions := st.instructions ++ [pyStrip rest] }
        else some { st with instructions := st.instructions ++ [line] }
      else some st
  else some st

/-- The whole line loop, threading the state; `none` propagates an
exception out of the loop. -/
def scanLines : List PyStr → ScanState → Option ScanState
  | [], st => some st
  | l :: ls, st =>
    match processLine st l with
    | none => none
    | some st' => scanLines ls st'

/-- `parse_ai_recipe(recipe_text, original_ingredients)` (source lines
144–193): split on newlines, run the scan, then apply the defaulting
policy for empty ingredient/instruction lists. -/
def parse_ai_recipe (recipe_text : PyStr) (original_ingredients : List PyStr) :
    Option Recipe :=
  match scanLines (splitOnChar '\n' recipe_text) initScan with
  | none => none
  | some st =>
    some { title := st.title
           description := st.description
           ingredients :=
             if st.ingredients = [] then
               original_ingredients.map (fun ing => ing ++ pys " - as needed")
             else st.ingredients
           instructions :=
             if st.instructions = [] then defaultInstructions
             else st.instructions }

/-- `create_fallback_recipe(ingredients)` (source lines 195–211).
`none` models the `IndexError` of `ingredients[0]` on an empty list. -/
def create_fallback_recipe (ingredients : List PyStr) : Option Recipe :=
  match ingredients with
  | [] => none
  | ing0 :: _ =>
    some { title := pys "Simple " ++ pyTitle ing0 ++ pys " Dish"
           description := pys "A quick and easy recipe using "
             ++ joinWith (pys ", ") ingredients
           ingredients := ingredients.map (fun ing => ing ++ pys " - as needed")
           instructions :=
             [pys "Wash and prepare all ingredients",
              pys "Heat oil in a pan over medium heat",
              pys "Add " ++ ing0 ++ pys " to the pan and cook for 3-5 minutes",
              pys "Add remaining ingredients and cook until tender",
              pys "Season with salt and pepper to taste",
              pys "Serve hot and enjoy!"] }

/-- `generate_recipe_with_ai(ingredients)` (source lines 80–142).
`remote` is the outcome of the whole remote pipeline
(`requests.post` + `raise_for_status` + `json()` + key lookups): `.ok`
carries the completion text, `.error` any of its failure modes.  The
`try`/`except` also covers the parse call, so a parsing exception is
likewise turned into the fallback. -/
def generate_recipe_with_ai (ingredients : List PyStr) (remote : Except Unit PyStr) :
    Option Recipe :=
  match remote with
  | .error _ => create_fallback_recipe ingredients
  | .ok text =>
    match parse_ai_recipe text ingredients with
    | some r => some r
    | none => create_fallback_recipe ingredients

/-- The ingredient normalisation of the handler (source line 231):
`[ing.lower().strip() for ing in ingredients]`. -/
def normalize (ingredients : List PyStr) : List PyStr :=
  ingredients.map (fun ing => pyStrip (pyLower ing))

/-- Whether an `Except`-modelled collaborator call succeeded. -/
def exceptOk : Except Unit Unit → Bool
  | .ok _ => true
  | .error _ => false

/-- `handle_recipe_request` (source lines 213–270).  Inputs: the parsed
JSON body (`none` when `request.get_json()` returned `None`), the store
stream outcome, the remote generation outcome, the `SAVE_AI_RECIPES`
toggle, and the outcome of the persistence write (whose exception the
source swallows at lines 260–261). -/
def handle_recipe_request (body : Option ReqData) (db : Except Unit (List StoredDoc))
    (remote : Except Unit PyStr) (save_flag : Bool) (persist : Except Unit Unit) :
    HandlerResult :=
  match body with
  | none => ⟨400, .err (pys "No data provided"), false, false, false, false⟩
  | some data =>
    if data.truthy = false then
      ⟨400, .err (pys "No data provided"), false, false, false, false⟩
    else
      let ingredients0 := data.ingredients.getD []
      let force_ai := (data.forceAI.getD false)
      if ingredients0 = [] then
        ⟨400, .err (pys "No ingredients provided"), false, false, false, false⟩
      else
        let ingredients := normalize ingredients0
        let aiBranch : Bool → HandlerResult := fun dbq =>
          match generate_recipe_with_ai ingredients remote with
          | none => ⟨500, .err (pys "Internal server error"), dbq, true, false, false⟩
          | some ai_recipe =>
            ⟨200, .fromAi ai_recipe, dbq, true, save_flag, save_flag && exceptOk persist⟩
        if force_ai then aiBranch false
        else
          match search_recipes_in_db ingredients db with
          | [] => aiBranch true
          | r :: rs => ⟨200, .fromDb (r :: rs), true, false, false, false⟩

/-! ## Lemmas about the string model -/

theorem startsWith_iff (pat l : PyStr) :
    startsWithList pat l = true ↔ ∃ r, l = pat ++ r := by
  induction pat generalizing l with
  | nil => simp [startsWithList]
  | cons p ps ih =>
    cases l with
    | nil => simp [startsWithList]
    | cons c cs =>
      simp only [startsWithList, Bool.and_eq_true, beq_iff_eq]
      constructor
      · rintro ⟨rfl, h⟩
        obtain ⟨r, rfl⟩ := (ih cs).mp h
        exact ⟨r, rfl⟩
      · rintro ⟨r, h⟩
        rw [List.cons_append] at h
        injection h with h1 h2
        exact ⟨h1.symm, (ih cs).mpr ⟨r, h2⟩⟩

theorem contains_iff (pat l : PyStr) :
    containsList pat l = true ↔ ∃ x y, l = x ++ pat ++ y := by
  induction l with
  | nil =>
    simp only [containsList, startsWith_iff]
    constructor
    · rintro ⟨r, h⟩
      exact ⟨[], r, by simpa using h⟩
    · rintro ⟨x, y, h⟩
      have hx : x = [] := by
        have := congrArg List.length h
        simp at this
        exact List.eq_nil_of_length_eq_zero (by omega)
      subst hx
      exact ⟨y, by simpa using h⟩
  | cons c cs ih =>
    simp only [containsList, Bool.or_eq_true, ih, startsWith_iff]
    constructor
    · rintro (⟨r, h⟩ | ⟨x, y, h⟩)
      · exact ⟨[], r, by simpa using h⟩
      · exact ⟨c :: x, y, by simp [h]⟩
    · rintro ⟨x, y, h⟩
      cases x with
      | nil => exact Or.inl ⟨y, by simpa using h⟩
      | cons a as =>
        rw [List.cons_append, List.cons_append] at h
        injection h with h1 h2
        exact Or.inr ⟨as, y, by simpa using h2⟩

theorem contains_of_append (pat x y : PyStr) :
    containsList pat (x ++ pat ++ y) = true :=
  (contains_iff pat _).mpr ⟨x, y, rfl⟩

theorem containsList_eq_false_of_mem (ch : Char) (pat l : PyStr)
    (hc : ch ∈ pat) (hl : ch ∉ l) : containsList pat l = false := by
  cases h : containsList pat l with
  | false => rfl
  | true =>
    obtain ⟨x, y, rfl⟩ := (contains_iff pat l).mp h
    exact absurd (by simp [hc] : ch ∈ x ++ pat ++ y) hl

theorem contains_singleton_of_mem {ch : Char} {l : PyStr} (h : ch ∈ l) :
    containsList [ch] l = true := by
  obtain ⟨s, t, rfl⟩ := List.append_of_mem h
  exact (contains_iff _ _).mpr ⟨s, t, by simp⟩

theorem contains_append_bound {q : PyStr} {ch : Char} {a b : PyStr}
    (h : containsList (q ++ [ch]) (a ++ b) = true) :
    containsList (q ++ [ch]) a = true ∨ ch ∈ b := by
  obtain ⟨x, y, hxy⟩ := (contains_iff _ _).mp h
  by_cases hlen : x.length + (q ++ [ch]).length ≤ a.length
  · left
    set n := x.length + (q ++ [ch]).length with hn
    have htake1 : (a ++ b).take n = a.take n := by
      rw [List.take_append_eq_append_take]
      have h0 : n - a.length = 0 := by omega
      rw [h0]
      simp
    have htake2 : (a ++ b).take n = x ++ (q ++ [ch]) := by
      have hn2 : (x ++ (q ++ [ch])).length = n := by simp [hn]
      rw [hxy, ← hn2, List.take_left]
    have ha : a.take n = x ++ (q ++ [ch]) := by rw [← htake1, htake2]
    refine (contains_iff _ _).mpr ⟨x, a.drop n, ?_⟩
    conv_lhs => rw [← List.take_append_drop n a]
    rw [ha, List.append_assoc]
  · right
    have hb : b = (a ++ b).drop a.length := by rw [List.drop_left]
    have hre : a ++ b = (x ++ q) ++ (ch :: y) := by
      rw [hxy]; simp
    have hle : a.length ≤ (x ++ q).length := by
      simp only [List.length_append] at hlen ⊢
      simp only [List.length_append, List.length_cons, List.length_nil] at hlen
      omega
    rw [hre, List.drop_append_of_le_length hle] at hb
    rw [hb]
    simp

/-! ### replace -/

theorem replaceList_eq_self (ch : Char) (pat repl l : PyStr)
    (hc : ch ∈ pat) (hl : ch ∉ l) : replaceList pat repl l = l := by
  induction l with
  | nil => simp [replaceList]
  | cons c cs ih =>
    rw [replaceList]
    rw [if_neg ?_]
    · rw [ih (fun h => hl (List.mem_cons_of_mem c h))]
    · intro h
      obtain ⟨r, hr⟩ := (startsWith_iff _ _).mp h
      exact hl (hr ▸ (by simp [hc]))

theorem replaceList_append_pat {pat repl r : PyStr} (h : pat ≠ []) :
    replaceList pat repl (pat ++ r) = repl ++ replaceList pat repl r := by
  cases pat with
  | nil => exact absurd rfl h
  | cons p ps =>
    rw [List.cons_append, replaceList, if_pos ((startsWith_iff _ _).mpr ⟨r, by simp⟩)]
    congr 2
    simp [List.drop_left]

/-! ### split and join -/

theorem splitOnChar_ne_nil (c : Char) (l : PyStr) : splitOnChar c l ≠ [] := by
  cases l with
  | nil => simp [splitOnChar]
  | cons x xs =>
    rw [splitOnChar]
    split
    · simp
    · split <;> simp

theorem splitOnChar_no_sep {c : Char} {l : PyStr} (h : c ∉ l) :
    splitOnChar c l = [l] := by
  induction l with
  | nil => rfl
  | cons x xs ih =>
    rw [splitOnChar]
    rw [if_neg ?_]
    · rw [ih (fun hx => h (List.mem_cons_of_mem x hx))]
    · simp only [beq_iff_eq]
      intro hx
      exact h (List.mem_cons.mpr (Or.inl hx.symm))

theorem splitOnChar_append {c : Char} {a r : PyStr} (h : c ∉ a) :
    splitOnChar c (a ++ c :: r) = a :: splitOnChar c r := by
  induction a with
  | nil =>
    rw [List.nil_append, splitOnChar, if_pos (by simp)]
  | cons x a' ih =>
    rw [List.cons_append, splitOnChar]
    rw [if_neg ?_]
    · rw [ih (fun hx => h (List.mem_cons_of_mem x hx))]
    · simp only [beq_iff_eq]
      intro hx
      exact h (List.mem_cons.mpr (Or.inl hx.symm))

theorem joinWith_splitOnChar (c : Char) (l : PyStr) :
    joinWith [c] (splitOnChar c l) = l := by
  induction l with
  | nil => rfl
  | cons x xs ih =>
    rw [splitOnChar]
    by_cases hx : x = c
    · rw [if_pos (by simp [hx])]
      obtain ⟨p, ps, hps⟩ := List.exists_cons_of_ne_nil (splitOnChar_ne_nil c xs)
      rw [hps] at ih ⊢
      rw [joinWith]
      simp [← ih, hx]
    · rw [if_neg (by simp [hx])]
      obtain ⟨p, ps, hps⟩ := List.exists_cons_of_ne_nil (splitOnChar_ne_nil c xs)
      rw [hps] at ih ⊢
      cases ps with
      | nil => simpa [joinWith] using congrArg (x :: ·) ih
      | cons q qs =>
        rw [joinWith] at ih ⊢
        simpa [joinWith] using congrArg (x :: ·) ih

theorem splitOnChar_joinWith {c : Char} {ls : List PyStr}
    (h : ∀ l ∈ ls, c ∉ l) (hne : ls ≠ []) :
    splitOnChar c (joinWith [c] ls) = ls := by
  induction ls with
  | nil => exact absurd rfl hne
  | cons x ls' ih =>
    cases ls' with
    | nil =>
      rw [joinWith]
      exact splitOnChar_no_sep (h x (by simp))
    | cons y ys =>
      rw [joinWith]
      have hx : c ∉ x := h x (by simp)
      rw [List.append_assoc, List.singleton_append, splitOnChar_append hx]
      rw [ih (fun l hl => h l (List.mem_cons_of_mem x hl)) (by simp)]

theorem splitOnChar_two_of_mem {c : Char} {l : PyStr} (h : c ∈ l) :
    ∃ p q qs, splitOnChar c l = p :: q :: qs := by
  induction l with
  | nil => simp at h
  | cons x xs ih =>
    rw [splitOnChar]
    by_cases hx : x = c
    · rw [if_pos (by simp [hx])]
      obtain ⟨p, ps, hps⟩ := List.exists_cons_of_ne_nil (splitOnChar_ne_nil c xs)
      exact ⟨[], p, ps, by rw [hps]⟩
    · rw [if_neg (by simp [hx])]
      have hxs : c ∈ xs := by
        rcases List.mem_cons.mp h with h1 | h1
        · exact absurd h1.symm hx
        · exact h1
      obtain ⟨p, q, qs, hps⟩ := ih hxs
      rw [hps]
      exact ⟨x :: p, q, qs, rfl⟩

theorem splitDotRest_isSome {l : PyStr}
    (h : containsList (pys ".") l = true) : (splitDotRest l).isSome = true := by
  have hm : '.' ∈ l := by
    obtain ⟨x, y, rfl⟩ := (contains_iff _ _).mp h
    simp [pys]
  obtain ⟨p, q, qs, hps⟩ := splitOnChar_two_of_mem hm
  rw [splitDotRest, hps]
  rfl

/-! ### strip -/

theorem length_dropWhile_piece (p : Char → Bool) (l : PyStr) :
    (l.dropWhile p).length ≤ l.length :=
  (List.dropWhile_suffix p).sublist.length_le

theorem dropWhile_eq_self_of_length {p : Char → Bool} {l : PyStr}
    (hlen : l.length ≤ (l.dropWhile p).length) : l.dropWhile p = l :=
  (List.dropWhile_suffix p).sublist.eq_of_length
    (le_antisymm (length_dropWhile_piece p l) hlen)

theorem dropWhile_eq_self_head? {p : Char → Bool} {l : PyStr}
    (hd : l.dropWhile p = l) {c : Char} (hc : l.head? = some c) : p c = false := by
  cases l with
  | nil => simp at hc
  | cons x xs =>
    have hx : x = c := by simpa using hc
    subst hx
    cases hp : p x with
    | false => rfl
    | true =>
      rw [List.dropWhile_cons, if_pos hp] at hd
      have h1 := length_dropWhile_piece p xs
      have h2 := congrArg List.length hd
      simp at h2
      omega

theorem stripped_facts {l : PyStr} (hs : pyStrip l = l) :
    l.dropWhile isPySpace = l ∧ l.reverse.dropWhile isPySpace = l.reverse := by
  have hlen := congrArg List.length hs
  unfold pyStrip at hlen
  rw [List.length_reverse] at hlen
  have h1 : (l.dropWhile isPySpace).length ≤ l.length :=
    length_dropWhile_piece _ _
  have h2 : ((l.dropWhile isPySpace).reverse.dropWhile isPySpace).length
      ≤ (l.dropWhile isPySpace).length := by
    have := length_dropWhile_piece isPySpace (l.dropWhile isPySpace).reverse
    rwa [List.length_reverse] at this
  have e1 : l.dropWhile isPySpace = l := dropWhile_eq_self_of_length (by omega)
  refine ⟨e1, ?_⟩
  rw [e1] at hlen
  exact dropWhile_eq_self_of_length (by rw [List.length_reverse]; omega)

theorem pyStrip_eq_self' {l : PyStr}
    (hh : ∀ c, l.head? = some c → isPySpace c = false)
    (hl : ∀ c, l.getLast? = some c → isPySpace c = false) : pyStrip l = l := by
  unfold pyStrip
  have h1 : l.dropWhile isPySpace = l := by
    cases l with
    | nil => rfl
    | cons x xs =>
      rw [List.dropWhile_cons, if_neg (by rw [hh x rfl]; simp)]
  rw [h1]
  have h2 : l.reverse.dropWhile isPySpace = l.reverse := by
    cases hr : l.reverse with
    | nil => rfl
    | cons x xs =>
      have hx : l.getLast? = some x := by
        rw [← List.head?_reverse, hr]
        rfl
      rw [List.dropWhile_cons, if_neg (by rw [hl x hx]; simp)]
  rw [h2, List.reverse_reverse]

theorem pyStrip_cons_space {c : Char} (hc : isPySpace c = true) (l : PyStr) :
    pyStrip (c :: l) = pyStrip l := by
  unfold pyStrip
  rw [List.dropWhile_cons, if_pos hc]

/-- A placeholder piece of template text: non-empty, newline-free,
asterisk-free, and unchanged by stripping. -/
structure IsPiece (t : PyStr) : Prop where
  ne : t ≠ []
  noNl : '\n' ∉ t
  noStar : '*' ∉ t
  strip : pyStrip t = t

theorem piece_head? {t : PyStr} (ht : IsPiece t) :
    ∀ c, t.head? = some c → isPySpace c = false := fun _ hc =>
  dropWhile_eq_self_head? (stripped_facts ht.strip).1 hc

theorem piece_last? {t : PyStr} (ht : IsPiece t) :
    ∀ c, t.getLast? = some c → isPySpace c = false := fun c hc => by
  apply dropWhile_eq_self_head? (stripped_facts ht.strip).2
  rw [List.head?_reverse]
  exact hc

/-! ### digits -/

theorem digit_not_space {c : Char} (h : c.isDigit = true) : isPySpace c = false := by
  cases hx : isPySpace c with
  | false => rfl
  | true =>
    unfold isPySpace at hx
    simp only [Bool.or_eq_true, beq_iff_eq] at hx
    rcases hx with ((((rfl | rfl) | rfl) | rfl) | rfl) | rfl <;> revert h <;> decide

theorem digit_ne {c d : Char} (h : c.isDigit = true) (hd : d.isDigit = false) :
    c ≠ d := by
  intro he
  rw [he, hd] at h
  cases h

/-! ## Safety of the parser: `parse_ai_recipe` never raises (claim C1) -/

theorem processLine_isSome (st : ScanState) (rawLine : PyStr) :
    (processLine st rawLine).isSome = true := by
  rw [processLine]
  by_cases h0 : pyStrip rawLine = []
  · simp [h0]
  obtain ⟨c, hc⟩ : ∃ c, (pyStrip rawLine).head? = some c := by
    cases hh : (pyStrip rawLine).head? with
    | none => exact absurd (List.head?_eq_none_iff.mp hh) h0
    | some c => exact ⟨c, rfl⟩
  by_cases hdot : containsList (pys ".") (pyStrip rawLine) = true
  · obtain ⟨rest, hrest⟩ : ∃ r, splitDotRest (pyStrip rawLine) = some r := by
      have hs := splitDotRest_isSome hdot
      cases hs2 : splitDotRest (pyStrip rawLine) with
      | none => rw [hs2] at hs; simp at hs
      | some r => exact ⟨r, rfl⟩
    repeat' split
    all_goals simp_all
  · repeat' split
    all_goals simp_all

theorem scanLines_isSome (ls : List PyStr) (st : ScanState) :
    (scanLines ls st).isSome = true := by
  induction ls generalizing st with
  | nil => rfl
  | cons l ls ih =>
    rw [scanLines]
    cases hp : processLine st l with
    | none =>
      have := processLine_isSome st l
      rw [hp] at this
      cases this
    | some st' => exact ih st'

theorem parse_ai_recipe_isSome (text : PyStr) (orig : List PyStr) :
    (parse_ai_recipe text orig).isSome = true := by
  rw [parse_ai_recipe]
  cases hs : scanLines (splitOnChar '\n' text) initScan with
  | none =>
    have := scanLines_isSome (splitOnChar '\n' text) initScan
    rw [hs] at this
    simp at this
  | some st => rfl

theorem parse_eq_scan (text : PyStr) (orig : List PyStr) :
    ∃ st, scanLines (splitOnChar '\n' text) initScan = some st ∧
      parse_ai_recipe text orig = some
        { title := st.title
          description := st.description
          ingredients :=
            if st.ingredients = [] then
              orig.map (fun ing => ing ++ pys " - as needed")
            else st.ingredients
          instructions :=
            if st.instructions = [] then defaultInstructions
            else st.instructions } := by
  cases hs : scanLines (splitOnChar '\n' text) initScan with
  | none =>
    have := scanLines_isSome (splitOnChar '\n' text) initScan
    rw [hs] at this
    simp at this
  | some st =>
    exact ⟨st, rfl, by rw [parse_ai_recipe, hs]⟩

theorem parse_some_fields {text : PyStr} {orig : List PyStr} {r : Recipe}
    (hp : parse_ai_recipe text orig = some r) :
    r.instructions ≠ [] ∧ (orig ≠ [] → r.ingredients ≠ []) := by
  obtain ⟨st, _, hp2⟩ := parse_eq_scan text orig
  rw [hp] at hp2
  injection hp2 with hp2
  subst hp2
  constructor
  · by_cases hi : st.instructions = [] <;>
      simp [hi, defaultInstructions, pys]
  · intro ho
    by_cases hg : st.ingredients = [] <;> simp [hg, ho]

/-- The title field is left alone by any line whose stripped form does
not contain the title marker. -/
theorem processLine_title_stable {st st' : ScanState} {l : PyStr}
    (hm : containsList (pys "**Title:**") (pyStrip l) = false)
    (hp : processLine st l = some st') : st'.title = st.title := by
  rw [processLine] at hp
  repeat' split at hp
  all_goals first
    | (cases hp; rfl)
    | simp_all

theorem processLine_description_stable {st st' : ScanState} {l : PyStr}
    (hm : containsList (pys "**Description:**") (pyStrip l) = false)
    (hp : processLine st l = some st') : st'.description = st.description := by
  rw [processLine] at hp
  repeat' split at hp
  all_goals first
    | (cases hp; rfl)
    | simp_all

theorem scanLines_title_stable {ls : List PyStr} {st st' : ScanState}
    (hm : ∀ l ∈ ls, containsList (pys "**Title:**") (pyStrip l) = false)
    (hp : scanLines ls st = some st') : st'.title = st.title := by
  induction ls generalizing st with
  | nil =>
    rw [scanLines] at hp
    injection hp with hp
    rw [hp]
  | cons l ls ih =>
    rw [scanLines] at hp
    cases hpl : processLine st l with
    | none => rw [hpl] at hp; cases hp
    | some st1 =>
      rw [hpl] at hp
      have h1 := processLine_title_stable (hm l (by simp)) hpl
      rw [ih (fun x hx => hm x (List.mem_cons_of_mem l hx)) hp, h1]

theorem scanLines_description_stable {ls : List PyStr} {st st' : ScanState}
    (hm : ∀ l ∈ ls, containsList (pys "**Description:**") (pyStrip l) = false)
    (hp : scanLines ls st = some st') : st'.description = st.description := by
  induction ls generalizing st with
  | nil =>
    rw [scanLines] at hp
    injection hp with hp
    rw [hp]
  | cons l ls ih =>
    rw [scanLines] at hp
    cases hpl : processLine st l with
    | none => rw [hpl] at hp; cases hp
    | some st1 =>
      rw [hpl] at hp
      have h1 := processLine_description_stable (hm l (by simp)) hpl
      rw [ih (fun x hx => hm x (List.mem_cons_of_mem l hx)) hp, h1]

/-! ## Fallback and generation helpers -/

theorem create_fallback_fields {ings : List PyStr} (h : ings ≠ []) :
    ∃ r, create_fallback_recipe ings = some r ∧
      r.ingredients ≠ [] ∧ r.instructions ≠ [] := by
  cases ings with
  | nil => exact absurd rfl h
  | cons i0 is => exact ⟨_, rfl, by simp [create_fallback_recipe], by simp⟩

theorem generate_some {ings : List PyStr} (remote : Except Unit PyStr) (h : ings ≠ []) :
    ∃ r, generate_recipe_with_ai ings remote = some r ∧
      r.ingredients ≠ [] ∧ r.instructions ≠ [] := by
  cases remote with
  | error e =>
    obtain ⟨r, hr, h1, h2⟩ := create_fallback_fields h
    exact ⟨r, by rw [generate_recipe_with_ai, hr], h1, h2⟩
  | ok text =>
    rw [generate_recipe_with_ai]
    cases hp : parse_ai_recipe text ings with
    | none =>
      have := parse_ai_recipe_isSome text ings
      rw [hp] at this
      simp at this
    | some r =>
      obtain ⟨h1, h2⟩ := parse_some_fields hp
      exact ⟨r, rfl, h2 h, h1⟩

/-! ## Line-shape lemmas for the round-trip theorem -/

theorem star_not_mem_cons {c : Char} (hc : ¬ c = '*') {t : PyStr}
    (ht : '*' ∉ t) : '*' ∉ c :: t := by
  intro hm
  rcases List.mem_cons.mp hm with h | h
  · exact hc h.symm
  · exact ht h

theorem pyStrip_line {c : Char} (hc : isPySpace c = false) {m t : PyStr}
    (ht : IsPiece t) : pyStrip (c :: (m ++ t)) = c :: (m ++ t) := by
  apply pyStrip_eq_self'
  · intro d hd
    have : d = c := by simpa using hd.symm
    rw [this, hc]
  · intro d hd
    obtain ⟨x, hx⟩ : ∃ x, t.getLast? = some x := by
      cases hg : t.getLast? with
      | none => exact absurd (List.getLast?_eq_none_iff.mp hg) ht.ne
      | some x => exact ⟨x, rfl⟩
    have : (c :: (m ++ t)).getLast? = some x := by
      rw [show c :: (m ++ t) = (c :: m) ++ t from rfl, List.getLast?_append, hx]
      rfl
    rw [this] at hd
    injection hd with hd
    rw [← hd]
    exact piece_last? ht x hx

theorem marker_not_in {q a b : PyStr}
    (h1 : containsList (q ++ ['*']) a = false) (h2 : '*' ∉ b) :
    containsList (q ++ ['*']) (a ++ b) = false := by
  cases h : containsList (q ++ ['*']) (a ++ b) with
  | false => rfl
  | true =>
    rcases contains_append_bound h with h3 | h3
    · rw [h1] at h3; cases h3
    · exact absurd h3 h2

theorem title_replace_value {t : PyStr} (ht : IsPiece t) :
    pyStrip (replaceList (pys "**") [] (replaceList (pys "**Title:**") []
      (pys "**Title:** " ++ t))) = t := by
  have hsp : '*' ∉ ' ' :: t := star_not_mem_cons (by decide) ht.noStar
  rw [show pys "**Title:** " ++ t = pys "**Title:**" ++ (' ' :: t) from rfl]
  rw [replaceList_append_pat (by decide), List.nil_append]
  rw [replaceList_eq_self '*' (pys "**Title:**") [] (' ' :: t) (by decide) hsp]
  rw [replaceList_eq_self '*' (pys "**") [] (' ' :: t) (by decide) hsp]
  rw [pyStrip_cons_space (by decide), ht.strip]

theorem desc_replace_value {t : PyStr} (ht : IsPiece t) :
    pyStrip (replaceList (pys "**") [] (replaceList (pys "**Description:**") []
      (pys "**Description:** " ++ t))) = t := by
  have hsp : '*' ∉ ' ' :: t := star_not_mem_cons (by decide) ht.noStar
  rw [show pys "**Description:** " ++ t = pys "**Description:**" ++ (' ' :: t) from rfl]
  rw [replaceList_append_pat (by decide), List.nil_append]
  rw [replaceList_eq_self '*' (pys "**Description:**") [] (' ' :: t) (by decide) hsp]
  rw [replaceList_eq_self '*' (pys "**") [] (' ' :: t) (by decide) hsp]
  rw [pyStrip_cons_space (by decide), ht.strip]

theorem processLine_titleLine (st : ScanState) {t : PyStr} (ht : IsPiece t) :
    processLine st (pys "**Title:** " ++ t) = some { st with title := t } := by
  have hline : pyStrip (pys "**Title:** " ++ t) = pys "**Title:** " ++ t := by
    rw [show pys "**Title:** " ++ t = '*' :: (pys "*Title:** " ++ t) from rfl]
    exact pyStrip_line (by decide) ht
  have hcontains : containsList (pys "**Title:**") (pys "**Title:** " ++ t) = true := by
    rw [show pys "**Title:** " ++ t = [] ++ pys "**Title:**" ++ (' ' :: t) from rfl]
    exact contains_of_append _ _ _
  simp only [processLine, hline]
  rw [if_neg (by simp [pys]), if_pos hcontains, title_replace_value ht]

theorem processLine_descLine (st : ScanState) {t : PyStr} (ht : IsPiece t) :
    processLine st (pys "**Description:** " ++ t) = some { st with description := t } := by
  have hline : pyStrip (pys "**Description:** " ++ t) = pys "**Description:** " ++ t := by
    rw [show pys "**Description:** " ++ t = '*' :: (pys "*Description:** " ++ t) from rfl]
    exact pyStrip_line (by decide) ht
  have hT : containsList (pys "**Title:**") (pys "**Description:** " ++ t) = false := by
    rw [show pys "**Title:**" = pys "**Title:*" ++ ['*'] from rfl]
    exact marker_not_in (by decide) ht.noStar
  have hcontains : containsList (pys "**Description:**")
      (pys "**Description:** " ++ t) = true := by
    rw [show pys "**Description:** " ++ t
      = [] ++ pys "**Description:**" ++ (' ' :: t) from rfl]
    exact contains_of_append _ _ _
  simp only [processLine, hline]
  rw [if_neg (by simp [pys]), if_neg (by simp [hT]), if_pos hcontains,
    desc_replace_value ht]

theorem processLine_ingMarker (st : ScanState) :
    processLine st (pys "**Ingredients List:**")
      = some { st with currentSection := some Sect.ingredients } := by
  rfl

theorem processLine_instrMarker (st : ScanState) :
    processLine st (pys "**Instructions:**")
      = some { st with currentSection := some Sect.instructions } := by
  rfl

theorem processLine_blank (st : ScanState) : processLine st [] = some st := rfl

theorem processLine_bullet {st : ScanState} (hsec : st.currentSection = some Sect.ingredients)
    {i : PyStr} (hi : IsPiece i) :
    processLine st (pys "- " ++ i)
      = some { st with ingredients := st.ingredients ++ [i] } := by
  have hstar : '*' ∉ pys "- " ++ i := by
    rw [show pys "- " ++ i = '-' :: (' ' :: i) from rfl]
    exact star_not_mem_cons (by decide) (star_not_mem_cons (by decide) hi.noStar)
  have hline : pyStrip (pys "- " ++ i) = pys "- " ++ i := by
    rw [show pys "- " ++ i = '-' :: ([' '] ++ i) from rfl]
    exact pyStrip_line (by decide) hi
  simp only [processLine, hline]
  rw [if_neg (by simp [pys]),
    if_neg (by simp [containsList_eq_false_of_mem '*' (pys "**Title:**") _ (by decide) hstar]),
    if_neg (by simp [containsList_eq_false_of_mem '*' (pys "**Description:**") _ (by decide) hstar]),
    if_neg (by simp [containsList_eq_false_of_mem '*' (pys "**Ingredients List:**") _ (by decide) hstar]),
    if_neg (by simp [containsList_eq_false_of_mem '*' (pys "**Instructions:**") _ (by decide) hstar]),
    if_pos ⟨hsec, rfl⟩]
  rw [show (pys "- " ++ i).drop 1 = ' ' :: i from rfl,
    pyStrip_cons_space (by decide), hi.strip]

theorem processLine_numbered {st : ScanState}
    (hsec : st.currentSection = some Sect.instructions)
    {c0 : Char} (hc0 : c0.isDigit = true) {s : PyStr} (hs : IsPiece s) :
    processLine st (c0 :: (pys ". " ++ s))
      = some { st with instructions := st.instructions ++ [s] } := by
  have hc0star : ¬ c0 = '*' := digit_ne hc0 (by decide)
  have hc0dot : ¬ c0 == '.' := by
    simpa using digit_ne hc0 (by decide)
  have hstar : '*' ∉ c0 :: (pys ". " ++ s) := by
    rw [show c0 :: (pys ". " ++ s) = c0 :: '.' :: ' ' :: s from rfl]
    exact star_not_mem_cons hc0star
      (star_not_mem_cons (by decide) (star_not_mem_cons (by decide) hs.noStar))
  have hline : pyStrip (c0 :: (pys ". " ++ s)) = c0 :: (pys ". " ++ s) :=
    pyStrip_line (digit_not_space hc0) hs
  have hdotmem : containsList (pys ".") (c0 :: (pys ". " ++ s)) = true :=
    contains_singleton_of_mem (by
      rw [show c0 :: (pys ". " ++ s) = c0 :: '.' :: ' ' :: s from rfl]
      simp)
  have hsplit : splitDotRest (c0 :: (pys ". " ++ s)) = some (' ' :: s) := by
    have hS : splitOnChar '.' (c0 :: (pys ". " ++ s))
        = [c0] :: splitOnChar '.' (' ' :: s) := by
      rw [show c0 :: (pys ". " ++ s) = c0 :: '.' :: (' ' :: s) from rfl]
      rw [splitOnChar, if_neg hc0dot, splitOnChar, if_pos (by simp)]
    obtain ⟨p, ps, hps⟩ := List.exists_cons_of_ne_nil (splitOnChar_ne_nil '.' (' ' :: s))
    have hjoin := joinWith_splitOnChar '.' (' ' :: s)
    rw [hps] at hS hjoin
    rw [splitDotRest, hS]
    show some (joinWith (pys ".") (p :: ps)) = some (' ' :: s)
    rw [show pys "." = ['.'] from rfl, hjoin]
  simp only [processLine, hline]
  rw [if_neg (by simp [pys]),
    if_neg (by simp [containsList_eq_false_of_mem '*' (pys "**Title:**") _ (by decide) hstar]),
    if_neg (by simp [containsList_eq_false_of_mem '*' (pys "**Description:**") _ (by decide) hstar]),
    if_neg (by simp [containsList_eq_false_of_mem '*' (pys "**Ingredients List:**") _ (by decide) hstar]),
    if_neg (by simp [containsList_eq_false_of_mem '*' (pys "**Instructions:**") _ (by decide) hstar]),
    if_neg (by simp [hsec]),
    if_pos hsec]
  simp only [List.head?_cons, hc0, if_true, hdotmem, hsplit]
  rw [pyStrip_cons_space (by decide), hs.strip]

/-! ## Round trip through the prompt template -/

/-- The lines of a completion that follows the prompt template of
`generate_recipe_with_ai` exactly (source lines 96–108): title line,
description line, ingredients marker with three bullet lines, and
instructions marker with three numbered lines. -/
def templateLines (t d i1 i2 i3 s1 s2 s3 : PyStr) : List PyStr :=
  [pys "**Title:** " ++ t, [],
   pys "**Description:** " ++ d, [],
   pys "**Ingredients List:**",
   pys "- " ++ i1, pys "- " ++ i2, pys "- " ++ i3, [],
   pys "**Instructions:**",
   '1' :: (pys ". " ++ s1), '2' :: (pys ". " ++ s2), '3' :: (pys ". " ++ s3)]

/-- The template-shaped completion text itself. -/
def templateText (t d i1 i2 i3 s1 s2 s3 : PyStr) : PyStr :=
  joinWith ['\n'] (templateLines t d i1 i2 i3 s1 s2 s3)

theorem nl_not_mem_line {a : PyStr} (ha : '\n' ∉ a) {t : PyStr}
    (hnl : '\n' ∉ t) : '\n' ∉ a ++ t := by
  intro h
  rcases List.mem_append.mp h with h1 | h1
  · exact ha h1
  · exact hnl h1

theorem scanLines_cons {st st' : ScanState} {l : PyStr} (ls : List PyStr)
    (h : processLine st l = some st') : scanLines (l :: ls) st = scanLines ls st' := by
  rw [scanLines, h]

theorem templateLines_no_nl {t d i1 i2 i3 s1 s2 s3 : PyStr}
    (ht : IsPiece t) (hd : IsPiece d)
    (h1 : IsPiece i1) (h2 : IsPiece i2) (h3 : IsPiece i3)
    (g1 : IsPiece s1) (g2 : IsPiece s2) (g3 : IsPiece s3) :
    ∀ l ∈ templateLines t d i1 i2 i3 s1 s2 s3, '\n' ∉ l := by
  intro l hl
  simp only [templateLines, List.mem_cons, List.not_mem_nil, or_false] at hl
  rcases hl with rfl | rfl | rfl | rfl | rfl | rfl | rfl | rfl | rfl | rfl | rfl | rfl | rfl
  · exact nl_not_mem_line (by decide) ht.noNl
  · simp
  · exact nl_not_mem_line (by decide) hd.noNl
  · simp
  · decide
  · exact nl_not_mem_line (by decide) h1.noNl
  · exact nl_not_mem_line (by decide) h2.noNl
  · exact nl_not_mem_line (by decide) h3.noNl
  · simp
  · decide
  · rw [show '1' :: (pys ". " ++ s1) = pys "1. " ++ s1 from rfl]
    exact nl_not_mem_line (by decide) g1.noNl
  · rw [show '2' :: (pys ". " ++ s2) = pys "2. " ++ s2 from rfl]
    exact nl_not_mem_line (by decide) g2.noNl
  · rw [show '3' :: (pys ". " ++ s3) = pys "3. " ++ s3 from rfl]
    exact nl_not_mem_line (by decide) g3.noNl

theorem scan_templateLines {t d i1 i2 i3 s1 s2 s3 : PyStr}
    (ht : IsPiece t) (hd : IsPiece d)
    (h1 : IsPiece i1) (h2 : IsPiece i2) (h3 : IsPiece i3)
    (g1 : IsPiece s1) (g2 : IsPiece s2) (g3 : IsPiece s3) :
    scanLines (templateLines t d i1 i2 i3 s1 s2 s3) initScan
      = some ⟨t, d, [i1, i2, i3], [s1, s2, s3], some Sect.instructions⟩ := by
  rw [templateLines]
  rw [scanLines_cons _ (processLine_titleLine initScan ht)]
  rw [scanLines_cons _ (processLine_blank _)]
  rw [scanLines_cons _ (processLine_descLine _ hd)]
  rw [scanLines_cons _ (processLine_blank _)]
  rw [scanLines_cons _ (processLine_ingMarker _)]
  rw [scanLines_cons _ (processLine_bullet rfl h1)]
  rw [scanLines_cons _ (processLine_bullet rfl h2)]
  rw [scanLines_cons _ (processLine_bullet rfl h3)]
  rw [scanLines_cons _ (processLine_blank _)]
  rw [scanLines_cons _ (processLine_instrMarker _)]
  rw [scanLines_cons _ (processLine_numbered rfl (by decide) g1)]
  rw [scanLines_cons _ (processLine_numbered rfl (by decide) g2)]
  rw [scanLines_cons _ (processLine_numbered rfl (by decide) g3)]
  rfl

/-! ## Store lookup lemmas -/

theorem memList_iff {x : PyStr} {ys : List PyStr} : memList x ys = true ↔ x ∈ ys := by
  induction ys with
  | nil => simp [memList]
  | cons y ys ih => simp [memList, ih]

theorem matchesQuery_iff {q : List PyStr} {doc : StoredDoc} :
    matchesQuery q doc = true ↔
      ∀ ing ∈ q, ing ∈ (doc.ingredients.getD []).map pyLower := by
  simp [matchesQuery, List.all_eq_true, memList_iff]

theorem search_mem_iff {q : List PyStr} {docs : List StoredDoc} {r : DbRecipe} :
    r ∈ search_recipes_in_db q (.ok docs) ↔
      ∃ doc ∈ docs, matchesQuery q doc = true ∧ r = docToRecipe doc := by
  rw [search_recipes_in_db]
  constructor
  · intro h
    obtain ⟨doc, hdoc, hr⟩ := List.mem_map.mp h
    obtain ⟨hmem, hq⟩ := List.mem_filter.mp hdoc
    exact ⟨doc, hmem, hq, hr.symm⟩
  · rintro ⟨doc, hmem, hq, rfl⟩
    exact List.mem_map.mpr ⟨doc, List.mem_filter.mpr ⟨hmem, hq⟩, rfl⟩

theorem matches_stored_ne_nil {q : List PyStr} {doc : StoredDoc}
    (hq : q ≠ []) (hm : matchesQuery q doc = true) :
    doc.ingredients.getD [] ≠ [] := by
  cases q with
  | nil => exact absurd rfl hq
  | cons a as =>
    have ha := (matchesQuery_iff.mp hm) a (by simp)
    intro hnil
    rw [hnil] at ha
    simp at ha

/-! ## Claims -/

/-- C1: for every input text (including the empty string, binary garbage,
and text with no recognised markers) and every list of original
ingredient strings, `parse_ai_recipe` terminates normally and never
raises.  In the embedding the two partial operations of the loop —
`line[0]`, taken only after the empty-after-trimming skip, and
`split('.', 1)[1]`, taken only under the `'.' in line` test — are the
only `none` sources, so the result being `some` for all inputs is
exactly the never-raises property (termination holds by construction,
as the loop is a structural recursion over the line list). -/
theorem C1_parse_never_raises :
    ∀ (text : PyStr) (originalIngredients : List PyStr),
      (parse_ai_recipe text originalIngredients).isSome = true :=
  parse_ai_recipe_isSome

/-- C2 counterexample: with `originalIngredients = []` and text with no
ingredient lines (here the empty text), the returned `ingredients` list
is empty — the claim promises a non-empty `ingredients` for every input
pair, which therefore fails. -/
theorem C2_counterexample :
    parse_ai_recipe [] [] = some
      { title := pys "AI-Generated Recipe"
        description := pys "A delicious recipe created just for you!"
        ingredients := []
        instructions := defaultInstructions } := by
  rfl

/-- C2 (amended): `parse_ai_recipe` always returns a Recipe with
non-empty `instructions`; `ingredients` is non-empty whenever
`originalIngredients` is non-empty (with empty `originalIngredients` and
no scanned ingredient lines the synthesized list is empty).  If the scan
produced zero ingredient entries, `ingredients` is synthesized as one
"<ingredient> - as needed" phrase per entry of `originalIngredients` in
order; if the scan produced zero instruction entries, `instructions` is
the fixed four-step sequence; `title` and `description` keep their fixed
placeholders when no line carries the respective marker. -/
theorem C2_parse_defaults (text : PyStr) (orig : List PyStr) :
    ∃ r st, scanLines (splitOnChar '\n' text) initScan = some st ∧
      parse_ai_recipe text orig = some r ∧
      r.instructions ≠ [] ∧
      (orig ≠ [] → r.ingredients ≠ []) ∧
      (st.ingredients = [] →
        r.ingredients = orig.map (fun ing => ing ++ pys " - as needed")) ∧
      (st.ingredients ≠ [] → r.ingredients = st.ingredients) ∧
      (st.instructions = [] → r.instructions = defaultInstructions) ∧
      (st.instructions ≠ [] → r.instructions = st.instructions) ∧
      ((∀ l ∈ splitOnChar '\n' text,
          containsList (pys "**Title:**") (pyStrip l) = false) →
        r.title = pys "AI-Generated Recipe") ∧
      ((∀ l ∈ splitOnChar '\n' text,
          containsList (pys "**Description:**") (pyStrip l) = false) →
        r.description = pys "A delicious recipe created just for you!") := by
  obtain ⟨st, hscan, hparse⟩ := parse_eq_scan text orig
  refine ⟨_, st, hscan, hparse, ?_, ?_, ?_, ?_, ?_, ?_, ?_, ?_⟩
  · by_cases hi : st.instructions = [] <;>
      simp [hi, defaultInstructions, pys]
  · intro ho
    by_cases hg : st.ingredients = [] <;> simp [hg, ho]
  · intro hg; simp [hg]
  · intro hg; simp [hg]
  · intro hi; simp [hi]
  · intro hi; simp [hi]
  · intro hm
    have := scanLines_title_stable hm hscan
    simpa [initScan] using this
  · intro hm
    have := scanLines_description_stable hm hscan
    simpa [initScan] using this

/-- C2 witness: the amended statement instantiated at a concrete text
with no markers and a singleton original ingredient list. -/
theorem C2_parse_defaults_witness :
    ∃ r st, scanLines (splitOnChar '\n' []) initScan = some st ∧
      parse_ai_recipe [] [pys "egg"] = some r ∧
      r.instructions ≠ [] ∧
      ([pys "egg"] ≠ ([] : List PyStr) → r.ingredients ≠ []) ∧
      (st.ingredients = [] →
        r.ingredients = [pys "egg"].map (fun ing => ing ++ pys " - as needed")) ∧
      (st.ingredients ≠ [] → r.ingredients = st.ingredients) ∧
      (st.instructions = [] → r.instructions = defaultInstructions) ∧
      (st.instructions ≠ [] → r.instructions = st.instructions) ∧
      ((∀ l ∈ splitOnChar '\n' [],
          containsList (pys "**Title:**") (pyStrip l) = false) →
        r.title = pys "AI-Generated Recipe") ∧
      ((∀ l ∈ splitOnChar '\n' [],
          containsList (pys "**Description:**") (pyStrip l) = false) →
        r.description = pys "A delicious recipe created just for you!") :=
  C2_parse_defaults [] [pys "egg"]

/-- C3: round trip — for any completion text that follows the prompt
template exactly (placeholder pieces are non-empty, trimmed, and free of
newlines and asterisks, as template-conforming free text is),
`parse_ai_recipe` returns exactly the three ingredient texts and three
instruction texts in order, with the markers and `**` stripped from
title and description. -/
theorem C3_roundtrip (t d i1 i2 i3 s1 s2 s3 : PyStr) (orig : List PyStr)
    (ht : IsPiece t) (hd : IsPiece d)
    (h1 : IsPiece i1) (h2 : IsPiece i2) (h3 : IsPiece i3)
    (g1 : IsPiece s1) (g2 : IsPiece s2) (g3 : IsPiece s3) :
    parse_ai_recipe (templateText t d i1 i2 i3 s1 s2 s3) orig
      = some { title := t, description := d,
               ingredients := [i1, i2, i3], instructions := [s1, s2, s3] } := by
  have hnl := templateLines_no_nl ht hd h1 h2 h3 g1 g2 g3
  have hsplit : splitOnChar '\n' (templateText t d i1 i2 i3 s1 s2 s3)
      = templateLines t d i1 i2 i3 s1 s2 s3 :=
    splitOnChar_joinWith hnl (by simp [templateLines])
  rw [parse_ai_recipe, hsplit, scan_templateLines ht hd h1 h2 h3 g1 g2 g3]
  rfl

/-- C3 witness: the round trip at a concrete template instance. -/
theorem C3_roundtrip_witness :
    parse_ai_recipe (templateText (pys "Tofu Delight") (pys "A tasty dish.")
        (pys "1 cup tofu") (pys "2 tbsp soy sauce") (pys "200g rice")
        (pys "Cook the rice.") (pys "Fry the tofu") (pys "Serve hot"))
        [pys "tofu", pys "soy sauce"]
      = some { title := pys "Tofu Delight", description := pys "A tasty dish.",
               ingredients :=
                 [pys "1 cup tofu", pys "2 tbsp soy sauce", pys "200g rice"],
               instructions :=
                 [pys "Cook the rice.", pys "Fry the tofu", pys "Serve hot"] } :=
  C3_roundtrip (pys "Tofu Delight") (pys "A tasty dish.")
    (pys "1 cup tofu") (pys "2 tbsp soy sauce") (pys "200g rice")
    (pys "Cook the rice.") (pys "Fry the tofu") (pys "Serve hot")
    [pys "tofu", pys "soy sauce"]
    ⟨by decide, by decide, by decide, by decide⟩
    ⟨by decide, by decide, by decide, by decide⟩
    ⟨by decide, by decide, by decide, by decide⟩
    ⟨by decide, by decide, by decide, by decide⟩
    ⟨by decide, by decide, by decide, by decide⟩
    ⟨by decide, by decide, by decide, by decide⟩
    ⟨by decide, by decide, by decide, by decide⟩
    ⟨by decide, by decide, by decide, by decide⟩

/-! ## Handler helpers -/

theorem search_result_ingredients_ne {q : List PyStr} {db : Except Unit (List StoredDoc)}
    (hq : q ≠ []) : ∀ r ∈ search_recipes_in_db q db, r.ingredients ≠ [] := by
  intro r hr
  cases db with
  | error e => simp [search_recipes_in_db] at hr
  | ok docs =>
    rw [search_mem_iff] at hr
    obtain ⟨doc, hdoc, hm, rfl⟩ := hr
    simpa [docToRecipe] using matches_stored_ne_nil hq hm

theorem normalize_ne_nil {ings : List PyStr} (h : ings ≠ []) : normalize ings ≠ [] := by
  simp [normalize, h]

theorem reqData_truthy_of_ings {d : ReqData} {ings : List PyStr}
    (hi : d.ingredients = some ings) : ¬ d.truthy = false := by
  simp [ReqData.truthy, hi]

/-- The store-hit branch of the handler, in full. -/
theorem handle_db_hit_aux (d : ReqData) (db : Except Unit (List StoredDoc))
    (remote : Except Unit PyStr) (save_flag : Bool) (persist : Except Unit Unit)
    (ings : List PyStr) (hi : d.ingredients = some ings) (hne : ings ≠ [])
    (hforce : d.forceAI.getD false = false)
    (hhit : search_recipes_in_db (normalize ings) db ≠ []) :
    handle_recipe_request (some d) db remote save_flag persist =
      ⟨200, .fromDb (search_recipes_in_db (normalize ings) db),
        true, false, false, false⟩ := by
  rw [handle_recipe_request]
  rw [if_neg (reqData_truthy_of_ings hi)]
  simp only [hi, Option.getD_some]
  rw [if_neg hne, hforce]
  rw [if_neg (by simp)]
  cases hs : search_recipes_in_db (normalize ings) db with
  | nil => exact absurd hs hhit
  | cons r rs => rfl

/-- The AI branch of the handler, in full: whenever the request is valid
and either generation is forced or the store has no matches, the handler
answers 200 with a single AI recipe whose two list fields are non-empty. -/
theorem handle_ai_path (d : ReqData) (db : Except Unit (List StoredDoc))
    (remote : Except Unit PyStr) (save_flag : Bool) (persist : Except Unit Unit)
    (ings : List PyStr) (hi : d.ingredients = some ings) (hne : ings ≠ [])
    (hpath : d.forceAI.getD false = true
      ∨ search_recipes_in_db (normalize ings) db = []) :
    ∃ r, generate_recipe_with_ai (normalize ings) remote = some r ∧
      r.ingredients ≠ [] ∧ r.instructions ≠ [] ∧
      handle_recipe_request (some d) db remote save_flag persist =
        ⟨200, .fromAi r, !(d.forceAI.getD false), true,
          save_flag, save_flag && exceptOk persist⟩ := by
  obtain ⟨r, hr, hring, hrins⟩ := generate_some remote (normalize_ne_nil hne)
  refine ⟨r, hr, hring, hrins, ?_⟩
  rw [handle_recipe_request]
  rw [if_neg (reqData_truthy_of_ings hi)]
  simp only [hi, Option.getD_some]
  rw [if_neg hne]
  by_cases hf : d.forceAI.getD false = true
  · rw [hf, if_pos rfl, hr]
    rfl
  · have hf2 : d.forceAI.getD false = false := by
      cases hfa : d.forceAI.getD false
      · rfl
      · exact absurd hfa hf
    have hs : search_recipes_in_db (normalize ings) db = [] := by
      rcases hpath with h | h
      · exact absurd h hf
      · exact h
    rw [hf2, if_neg (by simp), hs, hr]
    rfl

/-- The response (status and body, and every field except the
persistence-success trace flag) does not depend on the outcome of the
persistence write. -/
theorem handle_persist_indep (body : Option ReqData) (db : Except Unit (List StoredDoc))
    (remote : Except Unit PyStr) (save_flag : Bool) (p p' : Except Unit Unit) :
    (handle_recipe_request body db remote save_flag p).status
      = (handle_recipe_request body db remote save_flag p').status ∧
    (handle_recipe_request body db remote save_flag p).body
      = (handle_recipe_request body db remote save_flag p').body := by
  cases body with
  | none => exact ⟨rfl, rfl⟩
  | some d =>
    simp only [handle_recipe_request]
    repeat' split
    all_goals exact ⟨rfl, rfl⟩

/-- The invariant C6 asserts of the body of a 200 response. -/
def bodyRecipesOk : RespBody → Prop
  | .err _ => True
  | .fromDb rs => ∀ r ∈ rs, r.ingredients ≠ []
  | .fromAi r => r.ingredients ≠ [] ∧ r.instructions ≠ []

/-- C4: for every request whose body parses with a non-empty ingredients
list and `forceAI` absent or false, if the store lookup has one or more
matches then the handler responds 200 with the database-sourced,
array-shaped body containing exactly those matches, and the AI
generation client is never invoked (the `aiInvoked` trace flag is
`false`, and the whole response is independent of the `remote` input,
which the conclusion does not mention). -/
theorem C4_db_hit_short_circuits (d : ReqData) (db : Except Unit (List StoredDoc))
    (remote : Except Unit PyStr) (save_flag : Bool) (persist : Except Unit Unit)
    (ings : List PyStr) (hi : d.ingredients = some ings) (hne : ings ≠ [])
    (hforce : d.forceAI.getD false = false)
    (hhit : search_recipes_in_db (normalize ings) db ≠ []) :
    handle_recipe_request (some d) db remote save_flag persist =
      ⟨200, .fromDb (search_recipes_in_db (normalize ings) db),
        true, false, false, false⟩ :=
  handle_db_hit_aux d db remote save_flag persist ings hi hne hforce hhit

/-- C4 witness: a concrete store hit (stored "Egg"/"Flour" recipe,
query ["Egg"], `forceAI` absent). -/
theorem C4_db_hit_short_circuits_witness :
    handle_recipe_request (some ⟨some [pys "Egg"], none, false⟩)
        (.ok [⟨pys "r1", some (pys "Cake"), none,
          some [pys "Egg", pys "Flour"], some [pys "mix"]⟩])
        (.error ()) false (.ok ()) =
      ⟨200, .fromDb (search_recipes_in_db (normalize [pys "Egg"])
          (.ok [⟨pys "r1", some (pys "Cake"), none,
            some [pys "Egg", pys "Flour"], some [pys "mix"]⟩])),
        true, false, false, false⟩ :=
  C4_db_hit_short_circuits ⟨some [pys "Egg"], none, false⟩
    (.ok [⟨pys "r1", some (pys "Cake"), none,
      some [pys "Egg", pys "Flour"], some [pys "mix"]⟩])
    (.error ()) false (.ok ()) [pys "Egg"] rfl (by decide) (by decide) (by decide)

/-- C5: if the remote chat-completion call fails, then (first conjunct)
`generate_recipe_with_ai` returns exactly `create_fallback_recipe`
applied to the same ingredient list — as `Option` values, so the
behaviour on an empty list (where the fallback itself raises) also
coincides — and (second conjunct) end to end, on a valid request that
reaches generation, the handler still answers 200 with source "ai" and
recipe equal to the fallback recipe for the normalized ingredient
list. -/
theorem C5_remote_failure_fallback :
    (∀ (ings : List PyStr) (e : Unit),
        generate_recipe_with_ai ings (.error e) = create_fallback_recipe ings) ∧
    (∀ (d : ReqData) (db : Except Unit (List StoredDoc)) (save_flag : Bool)
        (persist : Except Unit Unit) (e : Unit) (ings : List PyStr),
        d.ingredients = some ings → ings ≠ [] →
        (d.forceAI.getD false = true
          ∨ search_recipes_in_db (normalize ings) db = []) →
        ∃ fb, create_fallback_recipe (normalize ings) = some fb ∧
          (handle_recipe_request (some d) db (.error e) save_flag persist).status
            = 200 ∧
          (handle_recipe_request (some d) db (.error e) save_flag persist).body
            = .fromAi fb) := by
  constructor
  · intro ings e
    rfl
  · intro d db save_flag persist e ings hi hne hpath
    obtain ⟨r, hr, _, _, hh⟩ :=
      handle_ai_path d db (.error e) save_flag persist ings hi hne hpath
    refine ⟨r, ?_, by rw [hh], by rw [hh]⟩
    rw [← hr]
    rfl

/-- C5 witness: scenario D of the spec — ingredients tofu and soy
sauce, empty store, remote failure. -/
theorem C5_remote_failure_fallback_witness :
    generate_recipe_with_ai [pys "tofu"] (.error ())
      = create_fallback_recipe [pys "tofu"] ∧
    ∃ fb, create_fallback_recipe (normalize [pys "tofu", pys "soy sauce"]) = some fb ∧
      (handle_recipe_request (some ⟨some [pys "tofu", pys "soy sauce"], none, false⟩)
          (.ok []) (.error ()) false (.ok ())).status = 200 ∧
      (handle_recipe_request (some ⟨some [pys "tofu", pys "soy sauce"], none, false⟩)
          (.ok []) (.error ()) false (.ok ())).body = .fromAi fb :=
  ⟨C5_remote_failure_fallback.1 [pys "tofu"] (),
   C5_remote_failure_fallback.2 ⟨some [pys "tofu", pys "soy sauce"], none, false⟩
     (.ok []) false (.ok ()) () [pys "tofu", pys "soy sauce"]
     rfl (by decide) (Or.inr (by decide))⟩

/-- C6: in every 200 response of the handler, `ingredients` and
`instructions` are never both empty in any contained Recipe — on the AI
path both are non-empty (parse defaults plus fallback builder), and on
the database path every match of the validated non-empty query has a
non-empty `ingredients` list. -/
theorem C6_response_recipes_nonempty (body : Option ReqData)
    (db : Except Unit (List StoredDoc)) (remote : Except Unit PyStr)
    (save_flag : Bool) (persist : Except Unit Unit)
    (h200 : (handle_recipe_request body db remote save_flag persist).status = 200) :
    bodyRecipesOk (handle_recipe_request body db remote save_flag persist).body := by
  cases body with
  | none => simp [handle_recipe_request] at h200
  | some d =>
    by_cases ht : d.truthy = false
    · rw [handle_recipe_request, if_pos ht] at h200 ⊢
      simp at h200
    obtain ⟨ings, hi⟩ : ∃ ings, d.ingredients = some ings := by
      cases hii : d.ingredients with
      | none =>
        rw [handle_recipe_request, if_neg ht] at h200
        simp [hii] at h200
      | some l => exact ⟨l, rfl⟩
    by_cases hne : ings = []
    · rw [handle_recipe_request, if_neg ht] at h200
      simp [hi, hne] at h200
    by_cases hf : d.forceAI.getD false = true
    · obtain ⟨r, _, hring, hrins, hh⟩ :=
        handle_ai_path d db remote save_flag persist ings hi hne (Or.inl hf)
      rw [hh]
      exact ⟨hring, hrins⟩
    · have hf2 : d.forceAI.getD false = false := by
        cases hfa : d.forceAI.getD false
        · rfl
        · exact absurd hfa hf
      cases hs : search_recipes_in_db (normalize ings) db with
      | nil =>
        obtain ⟨r, _, hring, hrins, hh⟩ :=
          handle_ai_path d db remote save_flag persist ings hi hne (Or.inr hs)
        rw [hh]
        exact ⟨hring, hrins⟩
      | cons r rs =>
        rw [handle_db_hit_aux d db remote save_flag persist ings hi hne hf2
          (by rw [hs]; simp)]
        intro rec hrec
        exact search_result_ingredients_ne (normalize_ne_nil hne) rec hrec

/-- C6 witness: the invariant evaluated at a concrete store-hit request. -/
theorem C6_response_recipes_nonempty_witness :
    bodyRecipesOk (handle_recipe_request (some ⟨some [pys "Egg"], none, false⟩)
        (.ok [⟨pys "r1", some (pys "Cake"), none,
          some [pys "Egg", pys "Flour"], some [pys "mix"]⟩])
        (.error ()) false (.ok ())).body :=
  C6_response_recipes_nonempty (some ⟨some [pys "Egg"], none, false⟩)
    (.ok [⟨pys "r1", some (pys "Cake"), none,
      some [pys "Egg", pys "Flour"], some [pys "mix"]⟩])
    (.error ()) false (.ok ()) (by decide)

/-- C7: store lookup matching is monotonic.  First: for a fixed query,
replacing a stored recipe's ingredient list by any list containing it
(in particular, adding elements) preserves matching.  Second: for a
fixed stored collection, shrinking the query (in particular, removing
an element) preserves membership of every previously matching recipe in
the result. -/
theorem C7_lookup_monotonic :
    (∀ (q : List PyStr) (doc doc' : StoredDoc),
        (∀ x ∈ doc.ingredients.getD [], x ∈ doc'.ingredients.getD []) →
        matchesQuery q doc = true → matchesQuery q doc' = true) ∧
    (∀ (docs : List StoredDoc) (q q' : List PyStr),
        (∀ x ∈ q', x ∈ q) →
        ∀ r ∈ search_recipes_in_db q (.ok docs),
          r ∈ search_recipes_in_db q' (.ok docs)) := by
  constructor
  · intro q doc doc' hsub hm
    rw [matchesQuery_iff] at hm ⊢
    intro ing hing
    obtain ⟨y, hy, hmap⟩ := List.mem_map.mp (hm ing hing)
    exact List.mem_map.mpr ⟨y, hsub y hy, hmap⟩
  · intro docs q q' hsub r hr
    rw [search_mem_iff] at hr ⊢
    obtain ⟨doc, hdoc, hm, rfl⟩ := hr
    refine ⟨doc, hdoc, ?_, rfl⟩
    rw [matchesQuery_iff] at hm ⊢
    exact fun ing hing => hm ing (hsub ing hing)

/-- C7 witness: both monotonicity directions at concrete data — the
query ["egg"] still matches after the stored list grows from ["egg"] to
["egg","flour"], and a recipe matched by ["egg","flour"] stays in the
result set for the shrunken query ["egg"]. -/
theorem C7_lookup_monotonic_witness :
    matchesQuery [pys "egg"]
        ⟨pys "r1", none, none, some [pys "egg", pys "flour"], none⟩ = true ∧
    docToRecipe ⟨pys "r1", none, none, some [pys "egg", pys "flour"], none⟩
      ∈ search_recipes_in_db [pys "egg"]
        (.ok [⟨pys "r1", none, none, some [pys "egg", pys "flour"], none⟩]) :=
  ⟨C7_lookup_monotonic.1 [pys "egg"]
      ⟨pys "r0", none, none, some [pys "egg"], none⟩
      ⟨pys "r1", none, none, some [pys "egg", pys "flour"], none⟩
      (by decide) (by decide),
   C7_lookup_monotonic.2
      [⟨pys "r1", none, none, some [pys "egg", pys "flour"], none⟩]
      [pys "egg", pys "flour"] [pys "egg"] (by decide)
      (docToRecipe ⟨pys "r1", none, none, some [pys "egg", pys "flour"], none⟩)
      (by decide)⟩

/-- C8 counterexample: a stored recipe with the mixed-case ingredient
"Egg" matches the query ["egg"], and the returned Recipe carries
`ingredients = ["Egg"]` — the stored value verbatim, which is not
lower-cased, contradicting the claim that the returned ingredients are
the lower-cased names used for matching. -/
theorem C8_counterexample :
    search_recipes_in_db [pys "egg"]
        (.ok [⟨pys "r1", some (pys "Cake"), none, some [pys "Egg"], none⟩])
      = [{ id := pys "r1", title := pys "Cake", description := [],
           ingredients := [pys "Egg"], instructions := [] }] ∧
    pyLower (pys "Egg") ≠ pys "Egg" := by
  exact ⟨by decide, by decide⟩

/-- C8 (amended): every recipe returned by the store lookup arises from
a stored document whose lower-cased ingredient list contains every
query entry, and its `ingredients` field is that document's stored
ingredient list verbatim (not the lower-cased copy, which is used only
for the containment test). -/
theorem C8_store_ingredients_verbatim (q : List PyStr) (docs : List StoredDoc)
    (r : DbRecipe) (hr : r ∈ search_recipes_in_db q (.ok docs)) :
    ∃ doc ∈ docs,
      r.ingredients = doc.ingredients.getD [] ∧
      ∀ ing ∈ q, ing ∈ (doc.ingredients.getD []).map pyLower := by
  rw [search_mem_iff] at hr
  obtain ⟨doc, hdoc, hm, rfl⟩ := hr
  exact ⟨doc, hdoc, rfl, matchesQuery_iff.mp hm⟩

/-- C8 witness: the amended statement at the counterexample store. -/
theorem C8_store_ingredients_verbatim_witness :
    ∃ doc ∈ [(⟨pys "r1", some (pys "Cake"), none, some [pys "Egg"], none⟩ : StoredDoc)],
      ({ id := pys "r1", title := pys "Cake", description := [],
         ingredients := [pys "Egg"], instructions := [] } : DbRecipe).ingredients
        = doc.ingredients.getD [] ∧
      ∀ ing ∈ [pys "egg"], ing ∈ (doc.ingredients.getD []).map pyLower :=
  C8_store_ingredients_verbatim [pys "egg"]
    [⟨pys "r1", some (pys "Cake"), none, some [pys "Egg"], none⟩]
    { id := pys "r1", title := pys "Cake", description := [],
      ingredients := [pys "Egg"], instructions := [] }
    (by decide)

/-- C9 counterexample: the empty JSON object parses, has no ingredients
field, and yet the handler answers 400 "No data provided" (the empty
dict is falsy in Python), not "No ingredients provided" as the claim
states for every body with the field absent. -/
theorem C9_counterexample :
    handle_recipe_request (some ⟨none, none, false⟩) (.ok []) (.ok [])
        false (.ok ())
      = ⟨400, .err (pys "No data provided"), false, false, false, false⟩ ∧
    pys "No data provided" ≠ pys "No ingredients provided" :=
  ⟨rfl, by decide⟩

/-- C9 (amended): for every request whose body parses as a truthy
(non-empty) JSON object and whose ingredients field is an empty array
or absent, the handler responds 400 {"error": "No ingredients
provided"} without invoking the store lookup or the generation client;
when the parsed body is the empty object the handler instead responds
400 {"error": "No data provided"}. -/
theorem C9_no_ingredients_400 (d : ReqData) (db : Except Unit (List StoredDoc))
    (remote : Except Unit PyStr) (save_flag : Bool) (persist : Except Unit Unit)
    (htruthy : d.truthy = true)
    (hing : d.ingredients = none ∨ d.ingredients = some []) :
    handle_recipe_request (some d) db remote save_flag persist =
      ⟨400, .err (pys "No ingredients provided"), false, false, false, false⟩ := by
  rw [handle_recipe_request]
  rw [if_neg (by simp [htruthy])]
  rcases hing with h | h <;> simp [h]

/-- C9 witness: `{"ingredients": []}` (spec scenario A). -/
theorem C9_no_ingredients_400_witness :
    handle_recipe_request (some ⟨some [], none, false⟩) (.ok []) (.ok [])
        false (.ok ())
      = ⟨400, .err (pys "No ingredients provided"), false, false, false, false⟩ :=
  C9_no_ingredients_400 ⟨some [], none, false⟩ (.ok []) (.ok []) false (.ok ())
    (by decide) (Or.inr rfl)

/-- C10: with the persistence toggle enabled, a failing write-back
leaves the response exactly as a successful one: status and body agree
for every input (first conjunct), and in the AI-path scenario the
response under a failing write is still 200 with the same single AI
recipe body as under a successful write (second conjunct). -/
theorem C10_persist_failure_invisible :
    (∀ (body : Option ReqData) (db : Except Unit (List StoredDoc))
        (remote : Except Unit PyStr) (e : Unit),
        (handle_recipe_request body db remote true (.error e)).status
          = (handle_recipe_request body db remote true (.ok ())).status ∧
        (handle_recipe_request body db remote true (.error e)).body
          = (handle_recipe_request body db remote true (.ok ())).body) ∧
    (∀ (d : ReqData) (db : Except Unit (List StoredDoc))
        (remote : Except Unit PyStr) (e : Unit) (ings : List PyStr),
        d.ingredients = some ings → ings ≠ [] →
        (d.forceAI.getD false = true
          ∨ search_recipes_in_db (normalize ings) db = []) →
        ∃ r, (handle_recipe_request (some d) db remote true (.error e)).status = 200 ∧
          (handle_recipe_request (some d) db remote true (.error e)).body
            = .fromAi r ∧
          (handle_recipe_request (some d) db remote true (.ok ())).body
            = .fromAi r) := by
  constructor
  · intro body db remote e
    exact handle_persist_indep body db remote true (.error e) (.ok ())
  · intro d db remote e ings hi hne hpath
    obtain ⟨r, hr, _, _, hh1⟩ :=
      handle_ai_path d db remote true (.error e) ings hi hne hpath
    obtain ⟨r', hr', _, _, hh2⟩ :=
      handle_ai_path d db remote true (.ok ()) ings hi hne hpath
    have hrr : r' = r := by
      rw [hr] at hr'
      injection hr' with h
      exact h.symm
    refine ⟨r, by rw [hh1], by rw [hh1], ?_⟩
    rw [hh2, hrr]

/-- C10 witness: both conjuncts at a concrete forced-generation request
with a failing persistence write. -/
theorem C10_persist_failure_invisible_witness :
    ((handle_recipe_request (some ⟨some [pys "tofu"], some true, false⟩)
        (.ok []) (.error ()) true (.error ())).status
      = (handle_recipe_request (some ⟨some [pys "tofu"], some true, false⟩)
        (.ok []) (.error ()) true (.ok ())).status ∧
     (handle_recipe_request (some ⟨some [pys "tofu"], some true, false⟩)
        (.ok []) (.error ()) true (.error ())).body
      = (handle_recipe_request (some ⟨some [pys "tofu"], some true, false⟩)
        (.ok []) (.error ()) true (.ok ())).body) ∧
    ∃ r, (handle_recipe_request (some ⟨some [pys "tofu"], some true, false⟩)
        (.ok []) (.error ()) true (.error ())).status = 200 ∧
      (handle_recipe_request (some ⟨some [pys "tofu"], some true, false⟩)
        (.ok []) (.error ()) true (.error ())).body = .fromAi r ∧
      (handle_recipe_request (some ⟨some [pys "tofu"], some true, false⟩)
        (.ok []) (.error ()) true (.ok ())).body = .fromAi r :=
  ⟨C10_persist_failure_invisible.1 (some ⟨some [pys "tofu"], some true, false⟩)
      (.ok []) (.error ()) (),
   C10_persist_failure_invisible.2 ⟨some [pys "tofu"], some true, false⟩
      (.ok []) (.error ()) () [pys "tofu"] rfl (by decide) (Or.inl rfl)⟩

end RecipeApi
